import Mathlib

/-!
# Verification of `etl_base_contratos.py`

Shallow embedding of the single source file of the repository
`ibama_api_contratos` (an ETL utility that paginates a public-procurement
HTTP API, flattens nested JSON records into a pandas DataFrame and
reformats two currency columns), together with proofs and refutations of
the claims of its specification.

Modelling conventions:
* Python values occurring in the DataFrame are modelled by `Val`
  (`None`, booleans, numbers as exact rationals, strings, dicts).
* A pandas `DataFrame` is modelled column-wise as an ordered association
  list from column name to the list of cell values of that column.
* Code that can raise an exception that the source does not catch is
  modelled in `Option`: `none` means the Python code raises.
* The unbounded `while True` pagination loop is modelled with an explicit
  fuel parameter; the theorems hold for every sufficiently large fuel.
* `ast.literal_eval` (Python standard library) is modelled by
  `parsePyLiteral`, a parser for the literal subset relevant to these
  records: dicts with quoted string keys, quoted strings, integer and
  decimal number literals, `None`, `True`, `False`. `time.sleep` is
  modelled by returning the slept duration, `logging` by boolean
  companion functions, and the HTTP boundary by an `HttpOutcome` oracle.
-/

namespace Contratos

/-- A Python value as it can occur in a cell of the DataFrame. -/
inductive Val where
  | vnull : Val
  | vbool : Bool → Val
  | vnum : ℚ → Val
  | vstr : String → Val
  | vdict : List (String × Val) → Val

/-- The single-quote character (written via its code point to keep the
source free of quote-character literals). -/
def squote : Char := Char.ofNat 39

/-- The double-quote character. -/
def dquote : Char := Char.ofNat 34

/-- The opening-brace character. -/
def obrace : Char := Char.ofNat 123

/-- The closing-brace character. -/
def cbrace : Char := Char.ofNat 125

/-- The backslash character. -/
def bslash : Char := Char.ofNat 92

/-- Python `str.isspace` on the whitespace characters `str.strip` removes. -/
def isPySpace (c : Char) : Bool :=
  c == ' ' || c == '\t' || c == '\n' || c == '\r' ||
    c == Char.ofNat 11 || c == Char.ofNat 12

/-- Drop leading whitespace. -/
def skipSpaces (l : List Char) : List Char := l.dropWhile isPySpace

/-- Value of a most-significant-first digit string, read in base 10. -/
def fromDigitsRev : List Char → Nat
  | [] => 0
  | c :: cs => (c.toNat - 48) + 10 * fromDigitsRev cs

/-- Value of a most-significant-first digit string. -/
def fromDigits (l : List Char) : Nat := fromDigitsRev l.reverse

/-- Scan the body of a quoted Python string literal up to the closing
quote `q`; escape sequences are outside the modelled subset. -/
def parseStringBody (q : Char) : List Char → Option (List Char × List Char)
  | [] => none
  | c :: cs =>
    if c = q then some ([], cs)
    else if c = bslash then none
    else
      match parseStringBody q cs with
      | none => none
      | some (body, rest) => some (c :: body, rest)

/-- Parse `None` / `True` / `False`. -/
def parseKeyword (l : List Char) : Option (Val × List Char) :=
  if "None".data.isPrefixOf l then some (Val.vnull, l.drop 4)
  else if "True".data.isPrefixOf l then some (Val.vbool true, l.drop 4)
  else if "False".data.isPrefixOf l then some (Val.vbool false, l.drop 5)
  else none

/-- Parse an integer or decimal number literal, with optional leading
minus sign. -/
def parseNumberLit (l : List Char) : Option (Val × List Char) :=
  let p := match l with
    | '-' :: r => (true, r)
    | _ => (false, l)
  let ip := p.2.takeWhile Char.isDigit
  let r1 := p.2.dropWhile Char.isDigit
  if ip = [] then none
  else
    match r1 with
    | '.' :: r2 =>
      let fp := r2.takeWhile Char.isDigit
      let r3 := r2.dropWhile Char.isDigit
      if fp = [] then none
      else
        let mag : ℚ := (fromDigits ip : ℚ) + (fromDigits fp : ℚ) / (10 : ℚ) ^ fp.length
        some (Val.vnum (if p.1 then -mag else mag), r3)
    | _ => some (Val.vnum (if p.1 then -(fromDigits ip : ℚ) else (fromDigits ip : ℚ)), r1)

mutual

/-- Modelled from `ast.literal_eval` (Python standard library): parse one
Python literal of the subset used by these records, returning the value
and the unconsumed input.  The fuel bounds the nesting depth. -/
def parseValF : Nat → List Char → Option (Val × List Char)
  | 0, _ => none
  | fuel + 1, l =>
    match skipSpaces l with
    | [] => none
    | c :: cs =>
      if c = squote ∨ c = dquote then
        match parseStringBody c cs with
        | none => none
        | some (body, rest) => some (Val.vstr (String.mk body), rest)
      else if c = obrace then parseEntriesF fuel cs
      else
        match parseKeyword (c :: cs) with
        | some r => some r
        | none => parseNumberLit (c :: cs)

/-- Parse the entries of a Python dict literal after the opening brace. -/
def parseEntriesF : Nat → List Char → Option (Val × List Char)
  | 0, _ => none
  | fuel + 1, l =>
    match skipSpaces l with
    | [] => none
    | c :: cs =>
      if c = cbrace then some (Val.vdict [], cs)
      else if c = squote ∨ c = dquote then
        match parseStringBody c cs with
        | none => none
        | some (key, r1) =>
          match skipSpaces r1 with
          | ':' :: r2 =>
            match parseValF fuel r2 with
            | none => none
            | some (v, r3) =>
              match skipSpaces r3 with
              | ',' :: r4 =>
                match parseEntriesF fuel r4 with
                | some (Val.vdict es, r5) => some (Val.vdict ((String.mk key, v) :: es), r5)
                | _ => none
              | c2 :: r4 =>
                if c2 = cbrace then some (Val.vdict [(String.mk key, v)], r4)
                else none
              | [] => none
          | _ => none
      else none

end

/-- Modelled from `ast.literal_eval`: parse a complete Python literal;
`none` models the `ValueError` / `SyntaxError` raised on malformed input. -/
def parsePyLiteral (s : String) : Option Val :=
  match parseValF (s.data.length + 1) s.data with
  | none => none
  | some (v, rest) => if skipSpaces rest = [] then some v else none

/-! ## DataFrame model -/

/-- A pandas `DataFrame`, modelled column-wise: an ordered list of
(column name, cell values) pairs. -/
structure DataFrame where
  cols : List (String × List Val)

/-- First column with the given name in a column list. -/
def lookupCol : List (String × List Val) → String → Option (List Val)
  | [], _ => none
  | c :: cs, n => if c.1 = n then some c.2 else lookupCol cs n

/-- The values of column `n`, or `none` when `n ∉ df.columns`. -/
def DataFrame.getCol (df : DataFrame) (n : String) : Option (List Val) :=
  lookupCol df.cols n

/-- Python `n in df.columns`. -/
def DataFrame.hasCol (df : DataFrame) (n : String) : Bool :=
  df.cols.any (fun c => c.1 == n)

/-- Python `df[n] = vs`: overwrite the column when it exists, otherwise
append it as the last column (pandas puts new columns at the end). -/
def DataFrame.setCol (df : DataFrame) (n : String) (vs : List Val) : DataFrame :=
  if df.hasCol n then
    ⟨df.cols.map (fun c => if c.1 = n then (n, vs) else c)⟩
  else ⟨df.cols ++ [(n, vs)]⟩

/-- Python `df.drop(columns=names, inplace=True)`. -/
def DataFrame.dropCols (df : DataFrame) (names : List String) : DataFrame :=
  ⟨df.cols.filter (fun c => !names.contains c.1)⟩

/-! ## `BuscadorContrato._parse_dict` and `_expandir_colunas` -/

/-- `BuscadorContrato._parse_dict`: decode a string-encoded value with
`ast.literal_eval`, returning the empty dict on a decode error; non-string
values pass through unchanged. -/
def parse_dict (v : Val) : Val :=
  match v with
  | Val.vstr s =>
    match parsePyLiteral s with
    | some w => w
    | none => Val.vdict []
  | _ => v

/-- `True` exactly when `_parse_dict` takes its `except` branch and calls
`logging.warning` (the argument is a string whose decode fails). -/
def parse_dict_warns (v : Val) : Bool :=
  match v with
  | Val.vstr s => (parsePyLiteral s).isNone
  | _ => false

/-- First value bound to key `k`, or the default: Python `dict.get`. -/
def lookupEntry : List (String × Val) → String → Val → Val
  | [], _, d => d
  | e :: es, k, d => if e.1 = k then e.2 else lookupEntry es k d

/-- Python `x.get(k, default)`: defined on dicts; on every other value the
attribute access raises (`none`). -/
def pyGet (x : Val) (k : String) (default : Val) : Option Val :=
  match x with
  | Val.vdict es => some (lookupEntry es k default)
  | _ => none

/-- The body of the per-row lambda of `_expandir_colunas`: one or two
`get` steps along the key path; an empty path hits `chaves[0]` and raises. -/
def apply_mapeamento (chaves : List String) (x : Val) : Option Val :=
  match chaves with
  | [] => none
  | [k] => pyGet x k Val.vnull
  | k1 :: k2 :: _ =>
    match pyGet x k1 (Val.vdict []) with
    | none => none
    | some y => pyGet y k2 Val.vnull

/-- `Series.apply f`: `none` as soon as `f` raises on one element. -/
def mapOpt (f : α → Option β) : List α → Option (List β)
  | [] => some []
  | a :: as =>
    match f a, mapOpt f as with
    | some b, some bs => some (b :: bs)
    | _, _ => none

/-- The `for nova_coluna, *chaves in mapeamentos` loop of
`_expandir_colunas`: each iteration reads the `_dict` column and writes
one new column. -/
def expandir_loop (nomeDict : String) : DataFrame → List (String × List String) → Option DataFrame
  | df, [] => some df
  | df, m :: ms =>
    match df.getCol nomeDict with
    | none => none
    | some ds =>
      match mapOpt (apply_mapeamento m.2) ds with
      | none => none
      | some col => expandir_loop nomeDict (df.setCol m.1 col) ms

/-- `BuscadorContrato._expandir_colunas`: when the column is present,
parse it into a temporary `_dict` column, materialise every mapping, and
drop both the temporary and the original column; otherwise do nothing. -/
def expandir_colunas (df : DataFrame) (nomeColuna : String)
    (mapeamentos : List (String × List String)) : Option DataFrame :=
  match df.getCol nomeColuna with
  | none => some df
  | some vs =>
    let df1 := df.setCol (nomeColuna ++ "_dict") (vs.map parse_dict)
    match expandir_loop (nomeColuna ++ "_dict") df1 mapeamentos with
    | none => none
    | some df2 => some (df2.dropCols [nomeColuna ++ "_dict", nomeColuna])

/-! ## `BuscadorContrato._formatar_valores_brasileiros`

The Python lambda is `f'{x:,.2f}'.replace(',', 'X').replace('.', ',').replace('X', '.')`.
Numbers are modelled as exact rationals, so `f'{x:,.2f}'` becomes: round
`100 * x` to an integer with round-half-to-even, then print sign, the
integer part with `,` inserted every three digits, `.`, and two fractional
digits. -/

/-- The decimal digit character for `n < 10`. -/
def digitChar (n : Nat) : Char := Char.ofNat (48 + n)

/-- Decimal digits of `n`, least significant first; fuel-driven so that it
reduces in the kernel (`fuel ≥ n` suffices). -/
def natDigitsRevF : Nat → Nat → List Char
  | 0, _ => []
  | fuel + 1, n => if n = 0 then [] else digitChar (n % 10) :: natDigitsRevF fuel (n / 10)

/-- Floor of a rational (`Int./` is Euclidean division, which agrees with
floor division for the positive denominator); unlike `Int.floor` this
reduces in the kernel. -/
def ratFloor (q : ℚ) : Int := q.num / q.den

/-- Round-half-to-even of a rational to an integer, the rounding of
Python float formatting on exactly representable values. -/
def roundHalfEven (q : ℚ) : Int :=
  let f : Int := ratFloor q
  if q - f < 1 / 2 then f
  else if (1 : ℚ) / 2 < q - f then f + 1
  else if f % 2 = 0 then f else f + 1

/-- Insert a `,` after every group of three digits of a least-significant
first digit list (fuel-driven; `fuel ≥ ds.length` suffices). -/
def group3RevF : Nat → List Char → List Char
  | 0, ds => ds
  | fuel + 1, ds =>
    if ds.length ≤ 3 then ds
    else ds.take 3 ++ ',' :: group3RevF fuel (ds.drop 3)

/-- Integer part of Python `f'{x:,.2f}'`: decimal digits of `n`, most
significant first, with `,` as thousands separator. -/
def pyIntParte (n : Nat) : List Char :=
  let lsf := if n = 0 then ['0'] else natDigitsRevF n n
  (group3RevF lsf.length lsf).reverse

/-- Python `f'{x:,.2f}'` on an exact rational. -/
def pyFormatNum (q : ℚ) : List Char :=
  let n : Int := roundHalfEven (100 * q)
  let m : Nat := n.natAbs
  (if q < 0 then ['-'] else []) ++
    pyIntParte (m / 100) ++ '.' :: [digitChar (m / 10 % 10), digitChar (m % 10)]

/-- Python `str.replace` for a single-character pattern and replacement
(every occurrence is replaced). -/
def str_replace_char (old new : Char) (s : List Char) : List Char :=
  s.map (fun c => if c = old then new else c)

/-- The `.replace(',', 'X').replace('.', ',').replace('X', '.')` chain of
the source: swap `,` and `.` using `X` as scratch. -/
def para_br (s : List Char) : List Char :=
  str_replace_char 'X' '.' (str_replace_char '.' ',' (str_replace_char ',' 'X' s))

/-- Brazilian-locale rendering of a number: `.` as thousands separator,
`,` as decimal separator, two fractional digits. -/
def formatBR (q : ℚ) : List Char := para_br (pyFormatNum q)

/-- The per-cell lambda of `_formatar_valores_brasileiros`: numbers are
rendered to a Brazilian-locale string; on every other value the format
specifier `,.2f` raises (`none`). -/
def format_valor (v : Val) : Option Val :=
  match v with
  | Val.vnum q => some (Val.vstr (String.mk (formatBR q)))
  | _ => none

/-- `BuscadorContrato._formatar_valores_brasileiros`: reformat each listed
column that is present; absent columns are skipped silently. -/
def formatar_valores_brasileiros : DataFrame → List String → Option DataFrame
  | df, [] => some df
  | df, c :: cs =>
    match df.getCol c with
    | none => formatar_valores_brasileiros df cs
    | some vs =>
      match mapOpt format_valor vs with
      | none => none
      | some vs2 => formatar_valores_brasileiros (df.setCol c vs2) cs

/-! ## `BuscadorContrato.processar_dataframe` -/

/-- The `compra` mapping table of `processar_dataframe`. -/
def mapeamentos_compra : List (String × List String) :=
  [("codNumCompra", ["numero"]),
   ("objeto_Compra", ["objeto"]),
   ("numeroProcesso_Compra", ["numeroProcesso"]),
   ("contatoResponsavel_Compra", ["contatoResponsavel"])]

/-- The `unidadeGestora` mapping table of `processar_dataframe`. -/
def mapeamentos_unidade_gestora : List (String × List String) :=
  [("codUnidadeGestora", ["codigo"]),
   ("nome_UnidadeGestora", ["nome"]),
   ("descricaoPoder_UnidadeGestora", ["descricaoPoder"]),
   ("orgaoVinculado_codigoSIAFI", ["orgaoVinculado", "codigoSIAFI"]),
   ("orgaoVinculado_cnpj", ["orgaoVinculado", "cnpj"]),
   ("orgaoVinculado_sigla", ["orgaoVinculado", "sigla"]),
   ("orgaoVinculado_nome", ["orgaoVinculado", "nome"]),
   ("orgaoMaximo_codigo", ["orgaoMaximo", "codigo"]),
   ("orgaoMaximo_sigla", ["orgaoMaximo", "sigla"]),
   ("orgaoMaximo_nome", ["orgaoMaximo", "nome"])]

/-- The `fornecedor` mapping table of `processar_dataframe`. -/
def mapeamentos_fornecedor : List (String × List String) :=
  [("id_fornecedor", ["id"]),
   ("cpfFormatado_fornecedor", ["cpfFormatado"]),
   ("cnpjFormatado_fornecedor", ["cnpjFormatado"]),
   ("numeroInscricaoSocial_fornecedor", ["numeroInscricaoSocial"]),
   ("nome_fornecedor", ["nome"]),
   ("razaoSocialReceita_fornecedor", ["razaoSocialReceita"]),
   ("nomeFantasiaReceita_fornecedor", ["nomeFantasiaReceita"]),
   ("tipo_fornecedor", ["tipo"])]

/-- The `unidadeGestoraCompras` mapping table of `processar_dataframe`. -/
def mapeamentos_unidade_gestora_compras : List (String × List String) :=
  [("codigo_UnidadeGestoraCompras", ["codigo"]),
   ("nome_UnidadeGestoraCompras", ["nome"])]

/-- `BuscadorContrato.processar_dataframe`: expand the four nested
columns, then reformat the two currency columns. -/
def processar_dataframe (df : DataFrame) : Option DataFrame :=
  match expandir_colunas df "compra" mapeamentos_compra with
  | none => none
  | some d1 =>
    match expandir_colunas d1 "unidadeGestora" mapeamentos_unidade_gestora with
    | none => none
    | some d2 =>
      match expandir_colunas d2 "fornecedor" mapeamentos_fornecedor with
      | none => none
      | some d3 =>
        match expandir_colunas d3 "unidadeGestoraCompras" mapeamentos_unidade_gestora_compras with
        | none => none
        | some d4 => formatar_valores_brasileiros d4 ["valorInicialCompra", "valorFinalCompra"]

/-! ## `ClienteAPI` -/

/-- Result of one `requests.get` call: a response with an HTTP status and
a parsed JSON body, or a network-level failure. -/
inductive HttpOutcome (α : Type) where
  | ok : Nat → α → HttpOutcome α
  | netErr : HttpOutcome α

/-- `ClienteAPI._aplicar_limite_taxa`: the duration in seconds slept
before the request, chosen from the `restrito` flag and the wall-clock
hour of day. -/
def aplicar_limite_taxa (restrito : Bool) (horaAtual : Nat) : ℚ :=
  let maxRequisicoesPorMinuto : ℚ :=
    if restrito then 180
    else if 0 ≤ horaAtual ∧ horaAtual < 6 then 700
    else 400
  60 / maxRequisicoesPorMinuto

/-- `ClienteAPI.get`: apply the rate limit (first component: the slept
duration), then return the parsed JSON body on a 2xx response and `None`
on a network failure or a non-2xx status (`raise_for_status` raises, the
`except` branch logs and returns `None`). -/
def cliente_get {α : Type} (restrito : Bool) (horaAtual : Nat)
    (outcome : HttpOutcome α) : ℚ × Option α :=
  (aplicar_limite_taxa restrito horaAtual,
    match outcome with
    | HttpOutcome.ok status corpo =>
      if 200 ≤ status ∧ status < 300 then some corpo else none
    | HttpOutcome.netErr => none)

/-- `True` exactly when `ClienteAPI.get` takes its `except` branch and
calls `logging.error`. -/
def get_registra_erro {α : Type} (outcome : HttpOutcome α) : Bool :=
  match outcome with
  | HttpOutcome.ok status _ => !decide (200 ≤ status ∧ status < 300)
  | HttpOutcome.netErr => true

/-! ## `BuscadorContrato.buscar_contratos` -/

/-- `BuscadorContrato.buscar_contratos`: request page after page starting
at `pagina`, accumulating the records, until a page is falsy (`None` from
a failed request, or an empty list); returns the accumulated records and
the list of requested page numbers in order.  The fuel models the
unbounded `while True` loop: `none` means the loop did not finish within
`fuel` iterations, and the results agree for all sufficient fuels. -/
def buscar_contratos {α : Type} (resp : Nat → Option (List α)) :
    Nat → Nat → Option (List α × List Nat)
  | _, 0 => none
  | pagina, fuel + 1 =>
    match resp pagina with
    | none => some ([], [pagina])
    | some dados =>
      if dados.isEmpty then some ([], [pagina])
      else
        match buscar_contratos resp (pagina + 1) fuel with
        | none => none
        | some r => some (dados ++ r.1, pagina :: r.2)

/-! ## `ClienteAPI._carregar_chave_api` and `__init__` -/

/-- Python `str.strip`: drop whitespace at both ends. -/
def pyStrip (l : List Char) : List Char :=
  ((l.dropWhile isPySpace).reverse.dropWhile isPySpace).reverse

/-- Python `file.readline()` composed with the later `strip`: the first
line of the file (the trailing newline is removed by `strip` anyway). -/
def readFirstLine (contents : List Char) : List Char :=
  contents.takeWhile (fun c => c ≠ '\n')

/-- Python `str.split('=')`: the maximal `=`-free segments, in order. -/
def splitOnEq : List Char → List (List Char)
  | [] => [[]]
  | c :: cs =>
    if c = '=' then [] :: splitOnEq cs
    else
      match splitOnEq cs with
      | [] => [[c]]
      | h :: t => (c :: h) :: t

/-- `ClienteAPI._carregar_chave_api`: `readline().strip().split('=')[1]`;
`none` models both a missing/unreadable file and the `IndexError` when the
line has no `=` (the `except` branch returns `None`). -/
def carregar_chave_api (file : Option (List Char)) : Option (List Char) :=
  match file with
  | none => none
  | some contents => (splitOnEq (pyStrip (readFirstLine contents))).get? 1

/-- `ClienteAPI.__init__`: load the key and fail with `ValueError` when it
is `None` or empty (falsy); otherwise the client stores the token. -/
def cliente_init (file : Option (List Char)) : Except Unit (List Char) :=
  match carregar_chave_api file with
  | none => Except.error ()
  | some token => if token.isEmpty then Except.error () else Except.ok token

/-! ## Claim-side definitions (from the wording of the specification) -/

/-- From the spec wording of C8: the substring of the line that follows
the first `=`, when the line contains one. -/
def afterFirstEq (l : List Char) : Option (List Char) :=
  if l.contains '=' then some ((l.dropWhile (fun c => c ≠ '=')).drop 1)
  else none

/-- From the spec wording of C7/C10: read a Brazilian-locale number string
back into a rational — drop the `.` thousands separators, read the sign,
the integer part before the `,` and the fractional part after it. -/
def brParse (s : List Char) : ℚ :=
  let t := s.filter (fun c => c ≠ '.')
  let sgn : ℚ := if t.head? = some '-' then -1 else 1
  let u := if t.head? = some '-' then t.drop 1 else t
  let ip := u.takeWhile (fun c => c ≠ ',')
  let fp := (u.dropWhile (fun c => c ≠ ',')).drop 1
  sgn * ((fromDigits ip : ℚ) + (fromDigits fp : ℚ) / (10 : ℚ) ^ fp.length)

/-! ## Concrete inputs used to instantiate the theorems -/

/-- The characters of the C3 example string: a Python dict literal with
entries `numero : 123` and `objeto : X` (quotes and braces are spelled via
their code points). -/
def exemplo_compra : List Char :=
  obrace :: squote :: "numero".data ++ squote :: ':' :: ' ' :: squote :: "123".data ++
    squote :: ',' :: ' ' :: squote :: "objeto".data ++ squote :: ':' :: ' ' :: squote ::
    "X".data ++ [squote, cbrace]

/-- A one-row table whose `compra` cell holds the C3 example string. -/
def df_exemplo : DataFrame := ⟨[("compra", [Val.vstr (String.mk exemplo_compra)])]⟩

/-- Mock page oracle of the spec: page 1 has 5 records, page 2 has 3,
every later page is empty. -/
def resp_exemplo : Nat → Option (List Nat) := fun p =>
  if p = 1 then some [0, 1, 2, 3, 4] else if p = 2 then some [5, 6, 7] else some []

/-- Mock page oracle where page 1 has one record and page 2 fails. -/
def resp_falha : Nat → Option (List Nat) := fun p =>
  if p = 1 then some [7] else none

/-- The effect of the `replace` chain of `para_br` on one character that
is not the scratch character `X`. -/
def brChar (c : Char) : Char :=
  if c = ',' then '.' else if c = '.' then ',' else c

end Contratos

namespace Contratos

/-! # Theorems -/

/-- `ratFloor` agrees with the mathematical floor. -/
theorem ratFloor_eq_floor (q : ℚ) : ratFloor q = ⌊q⌋ := Rat.floor_def.symm

/-! ## The pagination loop -/

/-- Master description of one terminating run of the fetch loop: if the
`k` pages starting at `pagina` are non-empty and page `pagina + k` is
failed or empty, the loop returns the in-order concatenation of the `k`
pages and requests exactly pages `pagina, …, pagina + k`. -/
theorem buscar_contratos_run {α : Type} (resp : Nat → Option (List α)) (k : Nat) :
    ∀ pagina fuel : Nat,
    (∀ j, j < k → ∃ l, resp (pagina + j) = some l ∧ l ≠ []) →
    (resp (pagina + k) = none ∨ resp (pagina + k) = some []) →
    k + 1 ≤ fuel →
    buscar_contratos resp pagina fuel =
      some ((List.range' pagina k).flatMap (fun p => (resp p).getD []),
        List.range' pagina (k + 1)) := by
  induction k with
  | zero =>
    intro pagina fuel h1 h2 hf
    obtain ⟨f, rfl⟩ : ∃ f, fuel = f + 1 := ⟨fuel - 1, by omega⟩
    rcases h2 with h | h <;> rw [Nat.add_zero] at h <;>
      simp [buscar_contratos, h, List.range'_succ]
  | succ k ih =>
    intro pagina fuel h1 h2 hf
    obtain ⟨f, rfl⟩ : ∃ f, fuel = f + 1 := ⟨fuel - 1, by omega⟩
    obtain ⟨l, hl, hlne⟩ := h1 0 (Nat.succ_pos k)
    rw [Nat.add_zero] at hl
    have hrec := ih (pagina + 1) f
      (fun j hj => by
        have h := h1 (j + 1) (by omega)
        rwa [show pagina + (j + 1) = pagina + 1 + j by omega] at h)
      (by rwa [show pagina + 1 + k = pagina + (k + 1) by omega])
      (by omega)
    have hne : l.isEmpty = false := by
      cases l with
      | nil => exact absurd rfl hlne
      | cons a as => rfl
    simp only [buscar_contratos, hl, hne, hrec]
    rw [List.range'_succ, List.range'_succ, List.flatMap_cons, hl]
    rfl

/-- C1: for pages `pagina_inicial … N` each non-empty and page `N + 1`
empty, the fetch loop requests exactly the pages
`pagina_inicial, pagina_inicial + 1, …, N + 1` in this order (strictly
sequential, incremented by 1, `N + 2 - pagina_inicial` requests, stopping
at the first empty page) and accumulates exactly the records of the
non-empty pages, whose count is the sum of the page sizes. -/
theorem claim_C1 {α : Type} (resp : Nat → Option (List α))
    (paginaInicial N fuel : Nat)
    (hpi : paginaInicial ≤ N + 1)
    (h1 : ∀ p, paginaInicial ≤ p → p ≤ N → ∃ l, resp p = some l ∧ l ≠ [])
    (h2 : resp (N + 1) = some [])
    (hf : N + 2 - paginaInicial ≤ fuel) :
    buscar_contratos resp paginaInicial fuel =
      some ((List.range' paginaInicial (N + 1 - paginaInicial)).flatMap
          (fun p => (resp p).getD []),
        List.range' paginaInicial (N + 2 - paginaInicial)) ∧
    ((List.range' paginaInicial (N + 1 - paginaInicial)).flatMap
        (fun p => (resp p).getD [])).length =
      ((List.range' paginaInicial (N + 1 - paginaInicial)).map
        (fun p => ((resp p).getD []).length)).sum := by
  have hrun := buscar_contratos_run resp (N + 1 - paginaInicial) paginaInicial fuel
    (fun j hj => h1 (paginaInicial + j) (by omega) (by omega))
    (by
      right
      rwa [show paginaInicial + (N + 1 - paginaInicial) = N + 1 by omega])
    (by omega)
  constructor
  · rwa [show N + 1 - paginaInicial + 1 = N + 2 - paginaInicial by omega] at hrun
  · rw [List.length_flatMap]
    rfl

/-- C1 witness: the spec pages [5 records, 3 records, 0 records] from
page 1 give 8 accumulated records via 3 sequential requests. -/
theorem claim_C1_witness :
    buscar_contratos resp_exemplo 1 3 = some ([0, 1, 2, 3, 4, 5, 6, 7], [1, 2, 3]) := by
  have h := (claim_C1 resp_exemplo 1 2 3 (by omega)
    (fun p h1 h2 => by
      interval_cases p
      · exact ⟨[0, 1, 2, 3, 4], rfl, by decide⟩
      · exact ⟨[5, 6, 7], rfl, by decide⟩)
    rfl (by omega)).1
  rw [h]
  rfl

/-- C9: for every page oracle whose first empty-or-failed page after
`pagina` is `pagina + k`, the records returned by the fetch loop are
exactly the in-order concatenation of the records of the non-empty pages
`pagina, …, pagina + k - 1`: order is preserved and nothing is dropped or
duplicated. -/
theorem claim_C9 {α : Type} (resp : Nat → Option (List α)) (pagina k fuel : Nat)
    (h1 : ∀ j, j < k → ∃ l, resp (pagina + j) = some l ∧ l ≠ [])
    (h2 : resp (pagina + k) = none ∨ resp (pagina + k) = some [])
    (hf : k + 1 ≤ fuel) :
    ∃ trace, buscar_contratos resp pagina fuel =
      some ((List.range' pagina k).flatMap (fun p => (resp p).getD []), trace) :=
  ⟨List.range' pagina (k + 1), buscar_contratos_run resp k pagina fuel h1 h2 hf⟩

/-- C9 witness: one non-empty page followed by a failed page — the loop
returns exactly the records of page 1. -/
theorem claim_C9_witness :
    ∃ trace, buscar_contratos resp_falha 1 2 = some ([7], trace) := by
  obtain ⟨trace, h⟩ := claim_C9 resp_falha 1 1 2
    (fun j hj => by interval_cases j; exact ⟨[7], rfl, by decide⟩)
    (Or.inl rfl) (by omega)
  exact ⟨trace, h.trans (by rfl)⟩

/-! ## The API client: `get` and the rate limit -/

/-- C2 counterexample: a failed request returns `None` while an empty
page returns the empty list — two different values, so it is not true
that a failure yields "the same sentinel that an empty result would
produce": a caller can distinguish them (only the loop's falsiness test
conflates them). -/
theorem claim_C2_counterexample :
    (cliente_get false 10 (HttpOutcome.netErr : HttpOutcome (List Nat))).2 = none ∧
    (cliente_get false 10 (HttpOutcome.ok 200 ([] : List Nat))).2 = some [] ∧
    (none : Option (List Nat)) ≠ some [] :=
  ⟨rfl, rfl, by decide⟩

/-- C2 (amended): `get` returns the parsed body on a 2xx status; on a
non-2xx status or a network failure it logs the error and returns `None`
— a value distinct from an empty page's `[]`, but equally falsy, so the
fetch loop behaves identically on a failed page and on an empty page. -/
theorem claim_C2_amended {α β : Type} (restrito : Bool) (hora status : Nat) (corpo : α)
    (resp : Nat → Option (List β)) (p0 : Nat) :
    (200 ≤ status → status < 300 →
      (cliente_get restrito hora (HttpOutcome.ok status corpo)).2 = some corpo) ∧
    (¬(200 ≤ status ∧ status < 300) →
      (cliente_get restrito hora (HttpOutcome.ok status corpo)).2 = none ∧
      get_registra_erro (HttpOutcome.ok status corpo) = true) ∧
    ((cliente_get restrito hora (HttpOutcome.netErr : HttpOutcome α)).2 = none ∧
      get_registra_erro (HttpOutcome.netErr : HttpOutcome α) = true) ∧
    (∀ pagina fuel,
      buscar_contratos (fun p => if p = p0 then none else resp p) pagina fuel =
        buscar_contratos (fun p => if p = p0 then some [] else resp p) pagina fuel) := by
  refine ⟨?_, ?_, ⟨rfl, rfl⟩, ?_⟩
  · intro h1 h2
    simp only [cliente_get]
    rw [if_pos ⟨h1, h2⟩]
  · intro h
    constructor
    · simp only [cliente_get]
      rw [if_neg h]
    · simp [get_registra_erro, h]
  · intro pagina fuel
    induction fuel generalizing pagina with
    | zero => rfl
    | succ f ih =>
      by_cases hp : pagina = p0
      · subst hp
        simp [buscar_contratos]
      · simp only [buscar_contratos, if_neg hp]
        cases hresp : resp pagina with
        | none => rfl
        | some l =>
          dsimp only
          cases hl : l.isEmpty with
          | true => rfl
          | false => rw [ih (pagina + 1)]

/-- C2 witness: concrete instances of the amended claim. -/
theorem claim_C2_amended_witness :
    (cliente_get false 10 (HttpOutcome.ok 200 (7 : Nat))).2 = some 7 ∧
    (cliente_get false 10 (HttpOutcome.ok 404 (7 : Nat))).2 = none ∧
    buscar_contratos (fun p => if p = 2 then none else resp_exemplo p) 1 5 =
      buscar_contratos (fun p => if p = 2 then some [] else resp_exemplo p) 1 5 :=
  ⟨(claim_C2_amended (β := Nat) false 10 200 (7 : Nat) resp_exemplo 2).1
      (by decide) (by decide),
   ((claim_C2_amended (β := Nat) false 10 404 (7 : Nat) resp_exemplo 2).2.1
      (by decide)).1,
   (claim_C2_amended (α := Nat) false 10 200 (7 : Nat) resp_exemplo 2).2.2.2 1 5⟩

/-- C6: a restricted call sleeps `60/180` seconds regardless of the hour;
a non-restricted call sleeps `60/700` seconds for hours in `[0, 6)` and
`60/400` seconds otherwise; every `get` applies exactly this delay before
the request. -/
theorem claim_C6 {α : Type} (restrito : Bool) (hora : Nat) :
    (restrito = true → aplicar_limite_taxa restrito hora = 60 / 180) ∧
    (restrito = false → hora < 6 → aplicar_limite_taxa restrito hora = 60 / 700) ∧
    (restrito = false → ¬hora < 6 → aplicar_limite_taxa restrito hora = 60 / 400) ∧
    (∀ outcome : HttpOutcome α,
      (cliente_get restrito hora outcome).1 = aplicar_limite_taxa restrito hora) := by
  refine ⟨?_, ?_, ?_, fun _ => rfl⟩
  · intro h
    subst h
    rfl
  · intro h h6
    subst h
    simp [aplicar_limite_taxa, h6, Nat.zero_le]
  · intro h h6
    subst h
    simp [aplicar_limite_taxa, h6]

/-- C6 witness: the three delays at concrete hours, and the delay
component of a concrete `get`. -/
theorem claim_C6_witness :
    aplicar_limite_taxa true 12 = 60 / 180 ∧
    aplicar_limite_taxa false 3 = 60 / 700 ∧
    aplicar_limite_taxa false 12 = 60 / 400 ∧
    (cliente_get true 12 (HttpOutcome.netErr : HttpOutcome Nat)).1 =
      aplicar_limite_taxa true 12 :=
  ⟨(claim_C6 (α := Nat) true 12).1 rfl,
   (claim_C6 (α := Nat) false 3).2.1 rfl (by decide),
   (claim_C6 (α := Nat) false 12).2.2.1 rfl (by decide),
   (claim_C6 (α := Nat) true 12).2.2.2 HttpOutcome.netErr⟩

/-! ## Credential loading -/

/-- C8 counterexample: for the credential line `chave=abc=def` (a
`key=value` line whose value contains a further `=`), the client stores
`abc` — the segment between the first and the second `=` — and not the
full substring `abc=def` that follows the first `=`. -/
theorem claim_C8_counterexample :
    cliente_init (some "chave=abc=def".data) = Except.ok "abc".data ∧
    afterFirstEq ("chave=abc=def".data) = some ("abc=def".data) ∧
    "abc".data ≠ "abc=def".data :=
  ⟨rfl, rfl, by decide⟩

/-- C8 (amended): when the stripped first line is `k=v` with no further
`=` in `k` or `v`, the stored token is exactly `v`, the substring after
the first `=` (in general the code stores the segment between the first
and second `=`); an empty extracted token, a line without `=`, and a
missing file are all fatal at construction. -/
theorem claim_C8_amended :
    (∀ contents k v : List Char,
      pyStrip (readFirstLine contents) = k ++ '=' :: v → '=' ∉ k → '=' ∉ v →
      carregar_chave_api (some contents) = some v ∧
      (v ≠ [] → cliente_init (some contents) = Except.ok v) ∧
      (v = [] → cliente_init (some contents) = Except.error ())) ∧
    (∀ contents : List Char, '=' ∉ pyStrip (readFirstLine contents) →
      cliente_init (some contents) = Except.error ()) ∧
    cliente_init none = Except.error () := by
  have hsplit1 : ∀ l : List Char, '=' ∉ l → splitOnEq l = [l] := by
    intro l
    induction l with
    | nil => intro _; rfl
    | cons c cs ih =>
      intro hl
      have hc : ¬c = '=' := fun h => hl (h ▸ List.mem_cons_self c cs)
      have hcs := ih (fun h => hl (List.mem_cons_of_mem c h))
      simp only [splitOnEq, if_neg hc, hcs]
  have hsplit2 : ∀ k rest : List Char, '=' ∉ k →
      splitOnEq (k ++ '=' :: rest) = k :: splitOnEq rest := by
    intro k rest
    induction k with
    | nil => intro _; simp [splitOnEq]
    | cons c cs ih =>
      intro hk
      have hc : ¬c = '=' := fun h => hk (h ▸ List.mem_cons_self c cs)
      have hcs := ih (fun h => hk (List.mem_cons_of_mem c h))
      simp only [List.cons_append, splitOnEq, if_neg hc, List.append_eq, hcs]
  refine ⟨?_, ?_, rfl⟩
  · intro contents k v hline hk hv
    have hc : carregar_chave_api (some contents) = some v := by
      simp only [carregar_chave_api, hline, hsplit2 k v hk, hsplit1 v hv]
      rfl
    refine ⟨hc, ?_, ?_⟩
    · intro hne
      simp only [cliente_init, hc]
      rw [if_neg (by simp [List.isEmpty_iff, hne])]
    · intro he
      subst he
      simp [cliente_init, hc]
  · intro contents hl
    simp [cliente_init, carregar_chave_api, hsplit1 _ hl]

/-- C8 witness: a well-formed line stores the value after the `=`; an
empty value, a line without `=`, and a missing file are fatal. -/
theorem claim_C8_amended_witness :
    carregar_chave_api (some "chave=abc".data) = some "abc".data ∧
    cliente_init (some "chave=abc".data) = Except.ok "abc".data ∧
    cliente_init (some "chave=".data) = Except.error () ∧
    cliente_init (some "semigual".data) = Except.error () ∧
    cliente_init none = Except.error () :=
  ⟨(claim_C8_amended.1 "chave=abc".data "chave".data "abc".data
      (by decide) (by decide) (by decide)).1,
   (claim_C8_amended.1 "chave=abc".data "chave".data "abc".data
      (by decide) (by decide) (by decide)).2.1 (by decide),
   (claim_C8_amended.1 "chave=".data "chave".data []
      (by decide) (by decide) (by decide)).2.2 rfl,
   claim_C8_amended.2.1 "semigual".data (by decide),
   claim_C8_amended.2.2⟩

/-! ## DataFrame lemmas -/

theorem lookupCol_none_iff (cols : List (String × List Val)) (n : String) :
    lookupCol cols n = none ↔ cols.any (fun c => c.1 == n) = false := by
  induction cols with
  | nil => simp [lookupCol]
  | cons c cs ih =>
    by_cases h : c.1 = n
    · simp [lookupCol, h]
    · simp [lookupCol, h, ih]

theorem lookupCol_append (l1 l2 : List (String × List Val)) (n : String) :
    lookupCol (l1 ++ l2) n =
      match lookupCol l1 n with
      | some vs => some vs
      | none => lookupCol l2 n := by
  induction l1 with
  | nil => rfl
  | cons c cs ih =>
    by_cases h : c.1 = n
    · simp [lookupCol, h]
    · simp [lookupCol, h, ih]

theorem lookupCol_map_set (cols : List (String × List Val)) (n : String) (vs : List Val)
    (h : cols.any (fun c => c.1 == n) = true) :
    lookupCol (cols.map (fun c => if c.1 = n then (n, vs) else c)) n = some vs := by
  induction cols with
  | nil => simp at h
  | cons c cs ih =>
    by_cases hc : c.1 = n
    · simp [lookupCol, hc]
    · have h2 : cs.any (fun c => c.1 == n) = true := by
        simpa [List.any_cons, hc] using h
      simp [lookupCol, hc, ih h2]

theorem lookupCol_map_set_ne (cols : List (String × List Val)) (n c : String)
    (vs : List Val) (h : c ≠ n) :
    lookupCol (cols.map (fun e => if e.1 = n then (n, vs) else e)) c = lookupCol cols c := by
  induction cols with
  | nil => rfl
  | cons e es ih =>
    by_cases hec : e.1 = c
    · have hen : ¬e.1 = n := fun hh => h (hec ▸ hh)
      simp [lookupCol, hec, hen, h]
    · by_cases hen : e.1 = n
      · simp [lookupCol, hec, hen, Ne.symm h, ih]
      · simp [lookupCol, hec, hen, ih]

/-- `setCol` then `getCol` at the same name yields the new values. -/
theorem getCol_setCol_self (df : DataFrame) (n : String) (vs : List Val) :
    (df.setCol n vs).getCol n = some vs := by
  unfold DataFrame.setCol DataFrame.getCol DataFrame.hasCol
  by_cases h : df.cols.any (fun c => c.1 == n)
  · rw [if_pos h]
    exact lookupCol_map_set df.cols n vs h
  · rw [if_neg h]
    have h0 : lookupCol df.cols n = none :=
      (lookupCol_none_iff df.cols n).2 (eq_false_of_ne_true h)
    rw [lookupCol_append, h0]
    simp [lookupCol]

/-- `setCol` does not change other columns. -/
theorem getCol_setCol_ne (df : DataFrame) (n c : String) (vs : List Val) (h : c ≠ n) :
    (df.setCol n vs).getCol c = df.getCol c := by
  unfold DataFrame.setCol DataFrame.getCol DataFrame.hasCol
  by_cases hany : df.cols.any (fun e => e.1 == n)
  · rw [if_pos hany]
    exact lookupCol_map_set_ne df.cols n c vs h
  · rw [if_neg hany, lookupCol_append]
    cases hl : lookupCol df.cols c with
    | some vs2 => rfl
    | none => simp [lookupCol, Ne.symm h]

/-- `dropCols` removes exactly the listed columns. -/
theorem getCol_dropCols_not_mem (df : DataFrame) (names : List String) (c : String)
    (h : c ∉ names) :
    (df.dropCols names).getCol c = df.getCol c := by
  unfold DataFrame.dropCols DataFrame.getCol
  induction df.cols with
  | nil => rfl
  | cons e es ih =>
    simp only [List.filter_cons]
    by_cases hcont : names.contains e.1 = true
    · have hec : ¬e.1 = c := by
        intro hh
        rw [hh] at hcont
        exact h (List.elem_iff.1 hcont)
      rw [if_neg (by simp only [Bool.not_eq_true']; simpa using List.elem_iff.1 hcont)]
      rw [ih]
      simp only [lookupCol, if_neg hec]
    · rw [if_pos (by simp only [Bool.not_eq_true']; simpa using fun hm => hcont (List.elem_iff.2 hm))]
      simp only [lookupCol]
      by_cases hec : e.1 = c
      · rw [if_pos hec, if_pos hec]
      · rw [if_neg hec, if_neg hec]
        exact ih

/-- A dropped column is absent afterwards. -/
theorem getCol_dropCols_mem (df : DataFrame) (names : List String) (c : String)
    (h : c ∈ names) :
    (df.dropCols names).getCol c = none := by
  unfold DataFrame.dropCols DataFrame.getCol
  induction df.cols with
  | nil => rfl
  | cons e es ih =>
    simp only [List.filter_cons]
    by_cases hcont : names.contains e.1 = true
    · rw [if_neg (by simp only [Bool.not_eq_true']; simpa using List.elem_iff.1 hcont)]
      exact ih
    · have hec : ¬e.1 = c := by
        intro hh
        rw [hh] at hcont
        exact hcont (List.elem_iff.2 h)
      rw [if_pos (by simp only [Bool.not_eq_true']; simpa using fun hm => hcont (List.elem_iff.2 hm))]
      simp only [lookupCol, if_neg hec]
      exact ih

/-! ## `mapOpt` lemmas -/

/-- A successful `mapOpt` maps index-wise. -/
theorem mapOpt_get? {α β : Type} (f : α → Option β) :
    ∀ (l : List α) (ws : List β), mapOpt f l = some ws →
    ∀ i, ws.get? i = (l.get? i).bind f := by
  intro l
  induction l with
  | nil =>
    intro ws h i
    cases h
    cases i <;> rfl
  | cons a as ih =>
    intro ws h i
    rw [mapOpt] at h
    cases hf : f a with
    | none => rw [hf] at h; cases h
    | some b =>
      rw [hf] at h
      cases hm : mapOpt f as with
      | none => rw [hm] at h; cases h
      | some bs =>
        rw [hm] at h
        cases h
        cases i with
        | zero => simpa using hf.symm
        | succ j => simpa using ih bs hm j

/-- `mapOpt` succeeds when `f` succeeds on every element. -/
theorem mapOpt_some_of_forall {α β : Type} (f : α → Option β) :
    ∀ l : List α, (∀ a ∈ l, (f a).isSome) → ∃ ws, mapOpt f l = some ws := by
  intro l
  induction l with
  | nil => exact fun _ => ⟨[], rfl⟩
  | cons a as ih =>
    intro h
    obtain ⟨b, hb⟩ := Option.isSome_iff_exists.1 (h a (List.mem_cons_self a as))
    obtain ⟨ws, hws⟩ := ih fun x hx => h x (List.mem_cons_of_mem a hx)
    exact ⟨b :: ws, by rw [mapOpt, hb, hws]⟩

/-- `mapOpt` of a pointwise-successful function computes the map. -/
theorem mapOpt_eq_map {α β : Type} (f : α → Option β) (g : α → β)
    (hfg : ∀ a, f a = some (g a)) :
    ∀ l : List α, mapOpt f l = some (l.map g) := by
  intro l
  induction l with
  | nil => rfl
  | cons a as ih => rw [mapOpt, hfg a, ih, List.map_cons]

/-! ## `_expandir_colunas` lemmas -/

/-- An absent nested column makes `_expandir_colunas` a no-op. -/
theorem expandir_skip (df : DataFrame) (nome : String) (maps : List (String × List String))
    (h : df.getCol nome = none) : expandir_colunas df nome maps = some df := by
  unfold expandir_colunas
  rw [h]

/-- The mapping loop leaves columns that no mapping writes unchanged. -/
theorem expandir_loop_getCol (nd : String) :
    ∀ (maps : List (String × List String)) (d d2 : DataFrame),
    expandir_loop nd d maps = some d2 →
    ∀ c, (∀ m ∈ maps, m.1 ≠ c) → d2.getCol c = d.getCol c := by
  intro maps
  induction maps with
  | nil =>
    intro d d2 h c _
    cases h
    rfl
  | cons m ms ih =>
    intro d d2 h c hm
    rw [expandir_loop] at h
    cases hd : d.getCol nd with
    | none => rw [hd] at h; cases h
    | some ds =>
      rw [hd] at h
      dsimp only at h
      cases hmo : mapOpt (apply_mapeamento m.2) ds with
      | none => rw [hmo] at h; cases h
      | some col =>
        rw [hmo] at h
        dsimp only at h
        rw [ih (d.setCol m.1 col) d2 h c (fun x hx => hm x (List.mem_cons_of_mem m hx))]
        exact getCol_setCol_ne _ _ _ _ (fun he => hm m (List.mem_cons_self m ms) he.symm)

/-- `_expandir_colunas` leaves unrelated columns unchanged. -/
theorem expandir_getCol_other (df df2 : DataFrame) (nome : String)
    (maps : List (String × List String)) (c : String)
    (h : expandir_colunas df nome maps = some df2)
    (hc1 : c ≠ nome) (hc2 : c ≠ nome ++ "_dict") (hm : ∀ m ∈ maps, m.1 ≠ c) :
    df2.getCol c = df.getCol c := by
  unfold expandir_colunas at h
  cases hn : df.getCol nome with
  | none =>
    rw [hn] at h
    cases h
    rfl
  | some vs =>
    rw [hn] at h
    dsimp only at h
    cases hl : expandir_loop (nome ++ "_dict")
        (df.setCol (nome ++ "_dict") (vs.map parse_dict)) maps with
    | none => rw [hl] at h; cases h
    | some d2 =>
      rw [hl] at h
      dsimp only at h
      cases h
      rw [getCol_dropCols_not_mem _ _ _ (by simp [hc1, hc2])]
      rw [expandir_loop_getCol _ maps _ _ hl c hm]
      exact getCol_setCol_ne _ _ _ _ hc2

/-- After `_expandir_colunas`, the original nested column is absent
(whether it was dropped or was never there). -/
theorem expandir_nome_absent (df df2 : DataFrame) (nome : String)
    (maps : List (String × List String))
    (h : expandir_colunas df nome maps = some df2)
    (hm : ∀ m ∈ maps, m.1 ≠ nome) : df2.getCol nome = none := by
  unfold expandir_colunas at h
  cases hn : df.getCol nome with
  | none =>
    rw [hn] at h
    cases h
    exact hn
  | some vs =>
    rw [hn] at h
    dsimp only at h
    cases hl : expandir_loop (nome ++ "_dict")
        (df.setCol (nome ++ "_dict") (vs.map parse_dict)) maps with
    | none => rw [hl] at h; cases h
    | some d2 =>
      rw [hl] at h
      dsimp only at h
      cases h
      exact getCol_dropCols_mem _ _ _ (by simp)

/-- The mapping loop materialises each mapping from the `_dict` column. -/
theorem expandir_loop_creates (nd : String) :
    ∀ (maps : List (String × List String)) (d d2 : DataFrame) (ds : List Val)
      (out : String) (keys : List String),
    expandir_loop nd d maps = some d2 →
    d.getCol nd = some ds →
    (∀ m ∈ maps, m.1 ≠ nd) →
    (maps.map Prod.fst).Nodup →
    (out, keys) ∈ maps →
    ∃ ws, mapOpt (apply_mapeamento keys) ds = some ws ∧ d2.getCol out = some ws := by
  intro maps
  induction maps with
  | nil =>
    intro d d2 ds out keys _ _ _ _ hmem
    cases hmem
  | cons m ms ih =>
    intro d d2 ds out keys h hd hnd hnodup hmem
    rw [expandir_loop, hd] at h
    dsimp only at h
    cases hmo : mapOpt (apply_mapeamento m.2) ds with
    | none => rw [hmo] at h; cases h
    | some col =>
      rw [hmo] at h
      dsimp only at h
      rcases List.mem_cons.1 hmem with heq | hmem2
      · cases heq
        have hout : ∀ x ∈ ms, x.1 ≠ out := by
          intro x hx hxe
          have hmem3 : x.1 ∈ ms.map Prod.fst := List.mem_map_of_mem Prod.fst hx
          rw [hxe] at hmem3
          exact (List.nodup_cons.1 hnodup).1 hmem3
        have hpres := expandir_loop_getCol nd ms (d.setCol out col) d2 h out hout
        exact ⟨col, hmo, by rw [hpres, getCol_setCol_self]⟩
      · exact ih (d.setCol m.1 col) d2 ds out keys h
          (by
            rw [getCol_setCol_ne _ _ _ _ (fun he => hnd m (List.mem_cons_self m ms) he.symm)]
            exact hd)
          (fun x hx => hnd x (List.mem_cons_of_mem m hx))
          (List.nodup_cons.1 hnodup).2 hmem2

/-- `_expandir_colunas` materialises each mapping from the parsed column. -/
theorem expandir_creates (df df2 : DataFrame) (nome : String)
    (maps : List (String × List String)) (vs : List Val) (out : String)
    (keys : List String)
    (h : expandir_colunas df nome maps = some df2)
    (hn : df.getCol nome = some vs)
    (hnd : ∀ m ∈ maps, m.1 ≠ nome ++ "_dict")
    (hnodup : (maps.map Prod.fst).Nodup)
    (hout1 : out ≠ nome) (hout2 : out ≠ nome ++ "_dict")
    (hmem : (out, keys) ∈ maps) :
    ∃ ws, mapOpt (apply_mapeamento keys) (vs.map parse_dict) = some ws ∧
      df2.getCol out = some ws := by
  unfold expandir_colunas at h
  rw [hn] at h
  dsimp only at h
  cases hl : expandir_loop (nome ++ "_dict")
      (df.setCol (nome ++ "_dict") (vs.map parse_dict)) maps with
  | none => rw [hl] at h; cases h
  | some d2 =>
    rw [hl] at h
    dsimp only at h
    cases h
    obtain ⟨ws, hws, hget⟩ := expandir_loop_creates (nome ++ "_dict") maps _ d2
      (vs.map parse_dict) out keys hl (getCol_setCol_self _ _ _) hnd hnodup hmem
    exact ⟨ws, hws, by
      rw [getCol_dropCols_not_mem _ _ _ (by simp [hout1, hout2]), hget]⟩

/-! ## `_formatar_valores_brasileiros` lemmas -/

/-- Currency formatting leaves unlisted columns unchanged. -/
theorem formatar_getCol_other :
    ∀ (cols : List String) (df df2 : DataFrame) (c : String),
    formatar_valores_brasileiros df cols = some df2 → c ∉ cols →
    df2.getCol c = df.getCol c := by
  intro cols
  induction cols with
  | nil =>
    intro df df2 c h _
    cases h
    rfl
  | cons c0 cs ih =>
    intro df df2 c h hc
    rw [formatar_valores_brasileiros] at h
    cases h0 : df.getCol c0 with
    | none =>
      rw [h0] at h
      exact ih df df2 c h (fun hm => hc (List.mem_cons_of_mem c0 hm))
    | some vs =>
      rw [h0] at h
      dsimp only at h
      cases hmo : mapOpt format_valor vs with
      | none => rw [hmo] at h; cases h
      | some vs2 =>
        rw [hmo] at h
        dsimp only at h
        rw [ih _ _ _ h (fun hm => hc (List.mem_cons_of_mem c0 hm))]
        exact getCol_setCol_ne _ _ _ _ (fun he => hc (he ▸ List.mem_cons_self c0 cs))

/-- When the `_dict` column holds the single row `{}` (a failed decode),
the mapping loop succeeds and every mapping with a non-empty key path
yields `None` for that row. -/
theorem expandir_loop_vdict_empty (nd : String) :
    ∀ (maps : List (String × List String)) (d : DataFrame),
    d.getCol nd = some [Val.vdict []] →
    (∀ m ∈ maps, m.1 ≠ nd) →
    (∀ m ∈ maps, m.2 ≠ []) →
    ∃ d2, expandir_loop nd d maps = some d2 ∧
      d2.getCol nd = some [Val.vdict []] ∧
      (∀ m ∈ maps, d2.getCol m.1 = some [Val.vnull]) ∧
      (∀ c, c ≠ nd → (∀ m ∈ maps, m.1 ≠ c) → d2.getCol c = d.getCol c) := by
  intro maps
  induction maps with
  | nil =>
    intro d hd _ _
    exact ⟨d, rfl, hd, fun m hm => absurd hm (List.not_mem_nil m), fun c _ _ => rfl⟩
  | cons m ms ih =>
    intro d hd hnd hne
    have happ : apply_mapeamento m.2 (Val.vdict []) = some Val.vnull := by
      cases hm2 : m.2 with
      | nil => exact absurd hm2 (hne m (List.mem_cons_self m ms))
      | cons k ks =>
        cases ks with
        | nil => rfl
        | cons k2 ks2 => rfl
    have hmo : mapOpt (apply_mapeamento m.2) [Val.vdict []] = some [Val.vnull] := by
      rw [mapOpt, happ, mapOpt]
    obtain ⟨d2, hl, hnd2, hms, hpres⟩ := ih (d.setCol m.1 [Val.vnull])
      (by
        rw [getCol_setCol_ne _ _ _ _ (fun he => hnd m (List.mem_cons_self m ms) he.symm)]
        exact hd)
      (fun x hx => hnd x (List.mem_cons_of_mem m hx))
      (fun x hx => hne x (List.mem_cons_of_mem m hx))
    refine ⟨d2, ?_, hnd2, ?_, ?_⟩
    · rw [expandir_loop, hd]
      dsimp only
      rw [hmo]
      exact hl
    · intro x hx
      rcases List.mem_cons.1 hx with heq | hx2
      · subst heq
        by_cases hxin : ∃ y ∈ ms, y.1 = x.1
        · obtain ⟨y, hy, hy1⟩ := hxin
          rw [← hy1]
          exact hms y hy
        · push_neg at hxin
          rw [hpres x.1 (fun he => hnd x (List.mem_cons_self x ms) he)
            (fun y hy => hxin y hy)]
          exact getCol_setCol_self _ _ _
      · exact hms x hx2
    · intro c hc hcm
      rw [hpres c hc (fun y hy => hcm y (List.mem_cons_of_mem m hy))]
      exact getCol_setCol_ne _ _ _ _ (fun he => hcm m (List.mem_cons_self m ms) he.symm)

/-! ## C3 / C4 / C5 -/

/-- C3 counterexample: with a `compra` cell holding the example string,
`process()` succeeds, but the produced columns are named `codNumCompra`
and `objeto_Compra` — no column named `numero` or `objeto` exists in the
output table (the spec's names are the dict keys, not the new columns). -/
theorem claim_C3_counterexample :
    df_exemplo.getCol "compra" = some [Val.vstr (String.mk exemplo_compra)] ∧
    (processar_dataframe df_exemplo).map
        (fun d => (d.getCol "numero", d.getCol "objeto",
          d.getCol "codNumCompra", d.getCol "objeto_Compra")) =
      some (none, none, some [Val.vstr "123"], some [Val.vstr "X"]) :=
  ⟨rfl, rfl⟩

/-- C3 (amended): for every table on which `process()` succeeds, a
`compra` cell holding the string `\x7b'numero': '123', 'objeto': 'X'\x7d`
yields in that row `codNumCompra = "123"` (from key `numero`) and
`objeto_Compra = "X"` (from key `objeto`), and the `compra` column is
absent from the result. -/
theorem claim_C3_amended (df df4 : DataFrame) (i : Nat) (vs : List Val)
    (h : processar_dataframe df = some df4)
    (hc : df.getCol "compra" = some vs)
    (hi : vs.get? i = some (Val.vstr (String.mk exemplo_compra))) :
    (∃ ws, df4.getCol "codNumCompra" = some ws ∧
      ws.get? i = some (Val.vstr "123")) ∧
    (∃ ws, df4.getCol "objeto_Compra" = some ws ∧
      ws.get? i = some (Val.vstr "X")) ∧
    df4.getCol "compra" = none := by
  unfold processar_dataframe at h
  cases h1 : expandir_colunas df "compra" mapeamentos_compra with
  | none => rw [h1] at h; cases h
  | some d1 =>
  rw [h1] at h
  dsimp only at h
  cases h2 : expandir_colunas d1 "unidadeGestora" mapeamentos_unidade_gestora with
  | none => rw [h2] at h; cases h
  | some d2 =>
  rw [h2] at h
  dsimp only at h
  cases h3 : expandir_colunas d2 "fornecedor" mapeamentos_fornecedor with
  | none => rw [h3] at h; cases h
  | some d3 =>
  rw [h3] at h
  dsimp only at h
  cases h4 : expandir_colunas d3 "unidadeGestoraCompras"
      mapeamentos_unidade_gestora_compras with
  | none => rw [h4] at h; cases h
  | some d4 =>
  rw [h4] at h
  dsimp only at h
  have track : ∀ out : String,
      (∀ m ∈ mapeamentos_unidade_gestora, m.1 ≠ out) →
      (∀ m ∈ mapeamentos_fornecedor, m.1 ≠ out) →
      (∀ m ∈ mapeamentos_unidade_gestora_compras, m.1 ≠ out) →
      out ≠ "unidadeGestora" → out ≠ "unidadeGestora_dict" →
      out ≠ "fornecedor" → out ≠ "fornecedor_dict" →
      out ≠ "unidadeGestoraCompras" → out ≠ "unidadeGestoraCompras_dict" →
      out ≠ "valorInicialCompra" → out ≠ "valorFinalCompra" →
      df4.getCol out = d1.getCol out := by
    intro out hm2 hm3 hm4 hb1 hb2 hb3 hb4 hb5 hb6 hv1 hv2
    rw [formatar_getCol_other _ d4 df4 out h (by simp [hv1, hv2])]
    rw [expandir_getCol_other d3 d4 _ _ out h4 hb5 hb6 hm4]
    rw [expandir_getCol_other d2 d3 _ _ out h3 hb3 hb4 hm3]
    rw [expandir_getCol_other d1 d2 _ _ out h2 hb1 hb2 hm2]
  refine ⟨?_, ?_, ?_⟩
  · obtain ⟨ws, hws, hg⟩ := expandir_creates df d1 "compra" mapeamentos_compra vs
      "codNumCompra" ["numero"] h1 hc (by decide) (by decide) (by decide) (by decide)
      (by decide)
    refine ⟨ws, ?_, ?_⟩
    · rw [track "codNumCompra" (by decide) (by decide) (by decide)
        (by decide) (by decide) (by decide) (by decide) (by decide) (by decide)
        (by decide) (by decide)]
      exact hg
    · rw [mapOpt_get? _ _ _ hws i, List.get?_map, hi]
      rfl
  · obtain ⟨ws, hws, hg⟩ := expandir_creates df d1 "compra" mapeamentos_compra vs
      "objeto_Compra" ["objeto"] h1 hc (by decide) (by decide) (by decide) (by decide)
      (by decide)
    refine ⟨ws, ?_, ?_⟩
    · rw [track "objeto_Compra" (by decide) (by decide) (by decide)
        (by decide) (by decide) (by decide) (by decide) (by decide) (by decide)
        (by decide) (by decide)]
      exact hg
    · rw [mapOpt_get? _ _ _ hws i, List.get?_map, hi]
      rfl
  · rw [track "compra" (by decide) (by decide) (by decide)
      (by decide) (by decide) (by decide) (by decide) (by decide) (by decide)
      (by decide) (by decide)]
    exact expandir_nome_absent df d1 "compra" mapeamentos_compra h1 (by decide)

/-- C3 witness: the amended claim instantiated on the one-row example
table. -/
theorem claim_C3_amended_witness :
    (∃ ws, (DataFrame.mk [("codNumCompra", [Val.vstr "123"]),
        ("objeto_Compra", [Val.vstr "X"]),
        ("numeroProcesso_Compra", [Val.vnull]),
        ("contatoResponsavel_Compra", [Val.vnull])]).getCol "codNumCompra" = some ws ∧
      ws.get? 0 = some (Val.vstr "123")) ∧
    (∃ ws, (DataFrame.mk [("codNumCompra", [Val.vstr "123"]),
        ("objeto_Compra", [Val.vstr "X"]),
        ("numeroProcesso_Compra", [Val.vnull]),
        ("contatoResponsavel_Compra", [Val.vnull])]).getCol "objeto_Compra" = some ws ∧
      ws.get? 0 = some (Val.vstr "X")) ∧
    (DataFrame.mk [("codNumCompra", [Val.vstr "123"]),
        ("objeto_Compra", [Val.vstr "X"]),
        ("numeroProcesso_Compra", [Val.vnull]),
        ("contatoResponsavel_Compra", [Val.vnull])]).getCol "compra" = none :=
  claim_C3_amended df_exemplo _ 0 [Val.vstr (String.mk exemplo_compra)] rfl rfl rfl

/-- C4: for every record whose nested cell holds a string whose decode
fails, `_parse_dict` substitutes the empty dict and logs a warning, the
flattening of that record does not raise, and every column mapped from
that field is `None` for that record. -/
theorem claim_C4 (s : String) (nome : String) (maps : List (String × List String))
    (hparse : parsePyLiteral s = none)
    (hne : ∀ m ∈ maps, m.2 ≠ [])
    (hnm : ∀ m ∈ maps, m.1 ≠ nome ++ "_dict" ∧ m.1 ≠ nome) :
    parse_dict (Val.vstr s) = Val.vdict [] ∧
    parse_dict_warns (Val.vstr s) = true ∧
    ∃ df2, expandir_colunas ⟨[(nome, [Val.vstr s])]⟩ nome maps = some df2 ∧
      ∀ m ∈ maps, df2.getCol m.1 = some [Val.vnull] := by
  have hpd : parse_dict (Val.vstr s) = Val.vdict [] := by
    unfold parse_dict
    dsimp only
    rw [hparse]
  refine ⟨hpd, ?_, ?_⟩
  · unfold parse_dict_warns
    dsimp only
    rw [hparse]
    rfl
  · have hd1 : (DataFrame.mk [(nome, [Val.vstr s])]).getCol nome = some [Val.vstr s] := by
      simp [DataFrame.getCol, lookupCol]
    obtain ⟨d2, hl, _, hms, _⟩ := expandir_loop_vdict_empty (nome ++ "_dict") maps
      ((DataFrame.mk [(nome, [Val.vstr s])]).setCol (nome ++ "_dict")
        ([Val.vstr s].map parse_dict))
      (by
        rw [getCol_setCol_self]
        simp [hpd])
      (fun m hm => (hnm m hm).1) hne
    refine ⟨d2.dropCols [nome ++ "_dict", nome], ?_, ?_⟩
    · unfold expandir_colunas
      rw [hd1]
      dsimp only
      rw [hl]
    · intro m hm
      rw [getCol_dropCols_not_mem _ _ _ (by simp [(hnm m hm).1, (hnm m hm).2])]
      exact hms m hm

/-- C4 witness: the string `not-a-dict` inside a `compra` cell — the
decode fails, a warning is logged, flattening succeeds, and all four
mapped columns are `None`. -/
theorem claim_C4_witness :
    parse_dict (Val.vstr "not-a-dict") = Val.vdict [] ∧
    parse_dict_warns (Val.vstr "not-a-dict") = true ∧
    ∃ df2, expandir_colunas ⟨[("compra", [Val.vstr "not-a-dict"])]⟩ "compra"
        mapeamentos_compra = some df2 ∧
      ∀ m ∈ mapeamentos_compra, df2.getCol m.1 = some [Val.vnull] :=
  claim_C4 "not-a-dict" "compra" mapeamentos_compra rfl (by decide) (by decide)

/-- C5 counterexample: a one-column table that is exactly the output of a
first `process()` run (the currency column already reformatted to a
string); running `process()` on it again raises in the currency
formatting step (`f-string` format specifier `,.2f` applied to a `str`),
so processing is not idempotent. -/
theorem claim_C5_counterexample :
    processar_dataframe ⟨[("valorInicialCompra", [Val.vnum ((123456789 : ℚ) / 100)])]⟩ =
      some ⟨[("valorInicialCompra", [Val.vstr "1.234.567,89"])]⟩ ∧
    processar_dataframe ⟨[("valorInicialCompra", [Val.vstr "1.234.567,89"])]⟩ = none :=
  ⟨by with_unfolding_all rfl, rfl⟩

/-- C5 (amended): a second `process()` run is a harmless no-op only when
the already-processed table has no `valorInicialCompra` /
`valorFinalCompra` column either (besides the four nested columns); with
a present, already-reformatted value column the second run raises. -/
theorem claim_C5_amended (df : DataFrame)
    (h1 : df.getCol "compra" = none)
    (h2 : df.getCol "unidadeGestora" = none)
    (h3 : df.getCol "fornecedor" = none)
    (h4 : df.getCol "unidadeGestoraCompras" = none)
    (h5 : df.getCol "valorInicialCompra" = none)
    (h6 : df.getCol "valorFinalCompra" = none) :
    processar_dataframe df = some df := by
  unfold processar_dataframe
  rw [expandir_skip df _ mapeamentos_compra h1]
  dsimp only
  rw [expandir_skip df _ mapeamentos_unidade_gestora h2]
  dsimp only
  rw [expandir_skip df _ mapeamentos_fornecedor h3]
  dsimp only
  rw [expandir_skip df _ mapeamentos_unidade_gestora_compras h4]
  dsimp only
  rw [formatar_valores_brasileiros, h5]
  dsimp only
  rw [formatar_valores_brasileiros, h6]
  dsimp only
  rfl

/-- C5 witness: the amended no-op instance on a flat table without the
nested and value columns. -/
theorem claim_C5_amended_witness :
    processar_dataframe ⟨[("codNumCompra", [Val.vstr "123"])]⟩ =
      some ⟨[("codNumCompra", [Val.vstr "123"])]⟩ :=
  claim_C5_amended _ rfl rfl rfl rfl rfl rfl

/-! ## Digit and grouping lemmas for the currency formatter -/

theorem digitChar_isDigit : ∀ d, d < 10 → (digitChar d).isDigit = true := by decide

theorem digitChar_toNat : ∀ d, d < 10 → (digitChar d).toNat - 48 = d := by decide

/-- A decimal digit character is none of the separator characters. -/
theorem isDigit_ne (c : Char) (h : c.isDigit = true) :
    c ≠ ',' ∧ c ≠ '.' ∧ c ≠ '-' ∧ c ≠ 'X' := by
  refine ⟨?_, ?_, ?_, ?_⟩ <;> intro he <;> subst he <;> revert h <;> decide

theorem natDigitsRevF_digits : ∀ fuel n c, c ∈ natDigitsRevF fuel n → c.isDigit = true := by
  intro fuel
  induction fuel with
  | zero =>
    intro n c hc
    cases hc
  | succ f ih =>
    intro n c hc
    rw [natDigitsRevF] at hc
    by_cases hn : n = 0
    · rw [if_pos hn] at hc
      cases hc
    · rw [if_neg hn] at hc
      rcases List.mem_cons.1 hc with h | h
      · subst h
        exact digitChar_isDigit _ (Nat.mod_lt _ (by omega))
      · exact ih _ _ h

theorem fromDigitsRev_natDigitsRevF : ∀ fuel n, n ≤ fuel →
    fromDigitsRev (natDigitsRevF fuel n) = n := by
  intro fuel
  induction fuel with
  | zero =>
    intro n h
    interval_cases n
    rfl
  | succ f ih =>
    intro n h
    rw [natDigitsRevF]
    by_cases hn : n = 0
    · rw [if_pos hn]
      subst hn
      rfl
    · rw [if_neg hn, fromDigitsRev, ih (n / 10) (by omega),
        digitChar_toNat _ (Nat.mod_lt _ (by omega))]
      omega

theorem group3RevF_filter : ∀ fuel ds, (∀ c ∈ ds, ¬c = ',') →
    (group3RevF fuel ds).filter (fun c => c ≠ ',') = ds := by
  intro fuel
  induction fuel with
  | zero =>
    intro ds h
    exact List.filter_eq_self.2 (fun c hc => by simpa using h c hc)
  | succ f ih =>
    intro ds h
    rw [group3RevF]
    by_cases hlen : ds.length ≤ 3
    · rw [if_pos hlen]
      exact List.filter_eq_self.2 (fun c hc => by simpa using h c hc)
    · rw [if_neg hlen, List.filter_append]
      rw [List.filter_eq_self.2
        (fun c hc => by simpa using h c (List.mem_of_mem_take hc))]
      rw [List.filter_cons]
      rw [if_neg (by simp)]
      rw [ih (ds.drop 3) (fun c hc => h c (List.mem_of_mem_drop hc))]
      exact List.take_append_drop 3 ds

theorem group3RevF_mem : ∀ fuel ds c, c ∈ group3RevF fuel ds → c ∈ ds ∨ c = ',' := by
  intro fuel
  induction fuel with
  | zero =>
    intro ds c hc
    exact Or.inl hc
  | succ f ih =>
    intro ds c hc
    rw [group3RevF] at hc
    by_cases hlen : ds.length ≤ 3
    · rw [if_pos hlen] at hc
      exact Or.inl hc
    · rw [if_neg hlen] at hc
      rcases List.mem_append.1 hc with h | h
      · exact Or.inl (List.mem_of_mem_take h)
      · rcases List.mem_cons.1 h with h | h
        · exact Or.inr h
        · rcases ih _ _ h with h2 | h2
          · exact Or.inl (List.mem_of_mem_drop h2)
          · exact Or.inr h2

/-- Every character of `pyIntParte` is a digit or the `,` separator. -/
theorem pyIntParte_mem (n : Nat) (c : Char) (hc : c ∈ pyIntParte n) :
    c.isDigit = true ∨ c = ',' := by
  unfold pyIntParte at hc
  rw [List.mem_reverse] at hc
  rcases group3RevF_mem _ _ _ hc with h | h
  · by_cases hn : n = 0
    · rw [if_pos hn] at h
      rcases List.mem_singleton.1 h with rfl
      exact Or.inl (by decide)
    · rw [if_neg hn] at h
      exact Or.inl (natDigitsRevF_digits _ _ _ h)
  · exact Or.inr h

/-- Dropping the thousands separators from `pyIntParte n` and reading the
digits back gives `n`. -/
theorem pyIntParte_value (n : Nat) :
    fromDigits ((pyIntParte n).filter (fun c => c ≠ ',')) = n := by
  unfold pyIntParte fromDigits
  rw [List.filter_reverse, List.reverse_reverse]
  by_cases hn : n = 0
  · rw [if_pos hn]
    subst hn
    rfl
  · rw [if_neg hn]
    rw [group3RevF_filter _ _
      (fun c hc => (isDigit_ne c (natDigitsRevF_digits _ _ _ hc)).1)]
    exact fromDigitsRev_natDigitsRevF n n le_rfl

theorem group3RevF_ne_nil : ∀ fuel ds, ds ≠ [] → group3RevF fuel ds ≠ ([] : List Char) := by
  intro fuel
  induction fuel with
  | zero => exact fun ds h => h
  | succ f ih =>
    intro ds h
    rw [group3RevF]
    by_cases hlen : ds.length ≤ 3
    · rw [if_pos hlen]
      exact h
    · rw [if_neg hlen]
      intro he
      have := congrArg List.length he
      rw [List.length_append, List.length_cons] at this
      simp at this

theorem natDigitsRevF_ne_nil : ∀ fuel n, n ≠ 0 → n ≤ fuel →
    natDigitsRevF fuel n ≠ [] := by
  intro fuel
  cases fuel with
  | zero => intro n h hle; omega
  | succ f =>
    intro n h _
    rw [natDigitsRevF, if_neg h]
    exact List.cons_ne_nil _ _

/-- `pyIntParte` is never empty. -/
theorem pyIntParte_ne_nil (n : Nat) : pyIntParte n ≠ [] := by
  unfold pyIntParte
  intro h
  rw [List.reverse_eq_nil_iff] at h
  by_cases hn : n = 0
  · rw [if_pos hn] at h
    exact group3RevF_ne_nil _ _ (List.cons_ne_nil _ _) h
  · rw [if_neg hn] at h
    exact group3RevF_ne_nil _ _ (natDigitsRevF_ne_nil n n hn le_rfl) h

/-- The digit part of `pyIntParte` is never empty. -/
theorem pyIntParte_filter_ne_nil (n : Nat) :
    (pyIntParte n).filter (fun c => c ≠ ',') ≠ [] := by
  unfold pyIntParte
  rw [List.filter_reverse]
  intro h
  rw [List.reverse_eq_nil_iff] at h
  by_cases hn : n = 0
  · rw [if_pos hn] at h
    rw [group3RevF_filter _ _ (by decide)] at h
    cases h
  · rw [if_neg hn] at h
    rw [group3RevF_filter _ _
      (fun c hc => (isDigit_ne c (natDigitsRevF_digits _ _ _ hc)).1)] at h
    exact natDigitsRevF_ne_nil n n hn le_rfl h

/-- `para_br` on a string without the scratch character `X` swaps `,`
and `.` pointwise. -/
theorem para_br_eq_map (s : List Char) (h : ∀ c ∈ s, c ≠ 'X') :
    para_br s = s.map brChar := by
  unfold para_br str_replace_char
  rw [List.map_map, List.map_map]
  refine List.map_congr_left ?_
  intro c hc
  have hx := h c hc
  by_cases h1 : c = ','
  · subst h1
    rfl
  · by_cases h2 : c = '.'
    · subst h2
      rfl
    · simp [Function.comp, brChar, h1, h2, hx]

/-- On digit-or-comma strings, mapping `brChar` then removing dots is the
same as removing commas. -/
theorem filter_brChar_of_digits : ∀ g : List Char,
    (∀ c ∈ g, c.isDigit = true ∨ c = ',') →
    (g.map brChar).filter (fun c => c ≠ '.') = g.filter (fun c => c ≠ ',') := by
  intro g
  induction g with
  | nil => intro _; rfl
  | cons c cs ih =>
    intro h
    rw [List.map_cons, List.filter_cons, List.filter_cons]
    rcases h c (List.mem_cons_self c cs) with hd | hcomma
    · have h1 := isDigit_ne c hd
      rw [show brChar c = c from by simp [brChar, h1.1, h1.2.1]]
      rw [if_pos (by simp [h1.2.1]), if_pos (by simp [h1.1])]
      rw [ih (fun x hx => h x (List.mem_cons_of_mem c hx))]
    · subst hcomma
      rw [show brChar ',' = '.' from rfl]
      rw [if_neg (by simp), if_neg (by simp)]
      exact ih (fun x hx => h x (List.mem_cons_of_mem _ hx))

/-- `takeWhile` / `dropWhile` on a list split by a separator. -/
theorem takeWhile_append_sep (p : Char → Bool) :
    ∀ (a : List Char) (x : Char) (b : List Char),
    (∀ c ∈ a, p c = true) → p x = false →
    (a ++ x :: b).takeWhile p = a ∧ (a ++ x :: b).dropWhile p = x :: b := by
  intro a
  induction a with
  | nil =>
    intro x b _ hx
    constructor
    · simp [List.takeWhile_cons, hx]
    · simp [List.dropWhile_cons, hx]
  | cons c a ih =>
    intro x b ha hx
    have hc := ha c (List.mem_cons_self c a)
    obtain ⟨h1, h2⟩ := ih x b (fun y hy => ha y (List.mem_cons_of_mem c hy)) hx
    constructor
    · rw [List.cons_append, List.takeWhile_cons, if_pos hc, h1]
    · rw [List.cons_append, List.dropWhile_cons, if_pos hc, h2]

/-- Round-half-to-even of a non-negative number is non-negative. -/
theorem roundHalfEven_nonneg (q : ℚ) (h : 0 ≤ q) : 0 ≤ roundHalfEven q := by
  unfold roundHalfEven
  simp only [ratFloor_eq_floor]
  have hf : (0 : Int) ≤ ⌊q⌋ := Int.floor_nonneg.2 h
  split_ifs <;> omega

/-- Round-half-to-even of a negative number is non-positive. -/
theorem roundHalfEven_nonpos (q : ℚ) (h : q < 0) : roundHalfEven q ≤ 0 := by
  unfold roundHalfEven
  simp only [ratFloor_eq_floor]
  have hf : ⌊q⌋ < 0 := Int.floor_lt.2 (by exact_mod_cast h)
  split_ifs <;> omega

/-- Full description of one formatted currency string: it is a prefix
without commas followed by a comma and exactly two digit characters, and
reading it back as a Brazilian-locale number gives exactly
`roundHalfEven (100 q) / 100` — the input rounded to two decimal places. -/
theorem formatBR_spec (q : ℚ) :
    ∃ p d1 d2, formatBR q = p ++ [',', d1, d2] ∧ ',' ∉ p ∧
      d1.isDigit = true ∧ d2.isDigit = true ∧
      brParse (formatBR q) = (roundHalfEven (100 * q) : ℚ) / 100 := by
  set n : Int := roundHalfEven (100 * q) with hn
  set m : Nat := n.natAbs with hm
  set g : List Char := pyIntParte (m / 100) with hg
  set c1 : Char := digitChar (m / 10 % 10) with hc1
  set c2 : Char := digitChar (m % 10) with hc2
  set sign : List Char := if q < 0 then ['-'] else [] with hsign
  have hd1 : c1.isDigit = true := by
    rw [hc1]
    exact digitChar_isDigit _ (Nat.mod_lt _ (by omega))
  have hd2 : c2.isDigit = true := by
    rw [hc2]
    exact digitChar_isDigit _ (Nat.mod_lt _ (by omega))
  have hgm : ∀ c ∈ g, c.isDigit = true ∨ c = ',' := by
    intro c hc
    rw [hg] at hc
    exact pyIntParte_mem _ c hc
  have hpf : pyFormatNum q = sign ++ g ++ '.' :: [c1, c2] := rfl
  have hnoX : ∀ c ∈ pyFormatNum q, c ≠ 'X' := by
    rw [hpf]
    intro c hc
    rcases List.mem_append.1 hc with hc | hc
    · rcases List.mem_append.1 hc with hc | hc
      · rw [hsign] at hc
        by_cases hq : q < 0
        · rw [if_pos hq] at hc
          rcases List.mem_singleton.1 hc with rfl
          decide
        · rw [if_neg hq] at hc
          cases hc
      · rcases hgm c hc with hd | hcm
        · exact (isDigit_ne c hd).2.2.2
        · subst hcm
          decide
    · rcases List.mem_cons.1 hc with rfl | hc
      · decide
      · rcases List.mem_cons.1 hc with rfl | hc
        · exact (isDigit_ne _ hd1).2.2.2
        · rcases List.mem_singleton.1 hc with rfl
          exact (isDigit_ne _ hd2).2.2.2
  have hsmap : sign.map brChar = sign := by
    rw [hsign]
    by_cases hq : q < 0
    · rw [if_pos hq]
      rfl
    · rw [if_neg hq]
      rfl
  have hbrc1 : brChar c1 = c1 := by
    simp [brChar, (isDigit_ne _ hd1).1, (isDigit_ne _ hd1).2.1]
  have hbrc2 : brChar c2 = c2 := by
    simp [brChar, (isDigit_ne _ hd2).1, (isDigit_ne _ hd2).2.1]
  have hbrdot : brChar '.' = ',' := rfl
  have hfb : formatBR q = (sign ++ g.map brChar) ++ [',', c1, c2] := by
    unfold formatBR
    rw [para_br_eq_map _ hnoX, hpf]
    simp [List.map_append, hsmap, hbrdot, hbrc1, hbrc2, List.append_assoc]
  have hpcomma : (',' : Char) ∉ sign ++ g.map brChar := by
    intro hc
    rcases List.mem_append.1 hc with hc | hc
    · rw [hsign] at hc
      by_cases hq : q < 0
      · rw [if_pos hq] at hc
        rcases List.mem_singleton.1 hc with h
        exact absurd h (by decide)
      · rw [if_neg hq] at hc
        cases hc
    · obtain ⟨c, hcg, hcb⟩ := List.mem_map.1 hc
      rcases hgm c hcg with hd | hcm
      · rw [show brChar c = c from by
          simp [brChar, (isDigit_ne c hd).1, (isDigit_ne c hd).2.1]] at hcb
        exact (isDigit_ne c hd).1 hcb
      · subst hcm
        exact absurd hcb (by decide)
  have hfilter : (formatBR q).filter (fun c => c ≠ '.') =
      (sign ++ g.filter (fun c => c ≠ ',')) ++ ',' :: [c1, c2] := by
    rw [hfb, List.filter_append, List.filter_append]
    rw [filter_brChar_of_digits g hgm]
    congr 2
    · rw [hsign]
      by_cases hq : q < 0
      · rw [if_pos hq]
        rfl
      · rw [if_neg hq]
        rfl
    · rw [List.filter_cons, if_pos (by simp), List.filter_cons,
        if_pos (by simp [(isDigit_ne _ hd1).2.1]), List.filter_cons,
        if_pos (by simp [(isDigit_ne _ hd2).2.1]), List.filter_nil]
  have hddigits : ∀ c ∈ g.filter (fun c => c ≠ ','), c.isDigit = true := by
    intro c hc
    rcases List.mem_filter.1 hc with ⟨hcg, hcne⟩
    rcases hgm c hcg with hd | hcm
    · exact hd
    · subst hcm
      simp at hcne
  have hddval : fromDigits (g.filter (fun c => c ≠ ',')) = m / 100 := by
    rw [hg]
    exact pyIntParte_value (m / 100)
  have hddnil : g.filter (fun c => c ≠ ',') ≠ [] := by
    rw [hg]
    exact pyIntParte_filter_ne_nil (m / 100)
  have htake : (g.filter (fun c => c ≠ ',') ++ ',' :: [c1, c2]).takeWhile
        (fun c => c ≠ ',') = g.filter (fun c => c ≠ ',') ∧
      (g.filter (fun c => c ≠ ',') ++ ',' :: [c1, c2]).dropWhile
        (fun c => c ≠ ',') = ',' :: [c1, c2] :=
    takeWhile_append_sep _ _ _ _
      (fun c hc => by simp [(isDigit_ne c (hddigits c hc)).1]) (by simp)
  have hval2 : fromDigits [c1, c2] = m % 100 := by
    have e1 : c1.toNat - 48 = m / 10 % 10 := by
      rw [hc1]
      exact digitChar_toNat _ (Nat.mod_lt _ (by omega))
    have e2 : c2.toNat - 48 = m % 10 := by
      rw [hc2]
      exact digitChar_toNat _ (Nat.mod_lt _ (by omega))
    show fromDigitsRev [c2, c1] = m % 100
    rw [fromDigitsRev, fromDigitsRev, fromDigitsRev, e1, e2]
    omega
  have hkey : ((m / 100 : Nat) : ℚ) + ((m % 100 : Nat) : ℚ) / (10 : ℚ) ^ (2 : Nat) =
      (m : ℚ) / 100 := by
    have h100 : 100 * ((m / 100 : Nat) : ℚ) + ((m % 100 : Nat) : ℚ) = (m : ℚ) := by
      exact_mod_cast Nat.div_add_mod m 100
    rw [show ((10 : ℚ)) ^ (2 : Nat) = 100 from by norm_num, ← h100]
    ring
  have hbp : brParse (formatBR q) = (n : ℚ) / 100 := by
    by_cases hq : q < 0
    · have hsv : sign = ['-'] := by rw [hsign, if_pos hq]
      rw [hsv] at hfilter
      have hmn : (m : ℚ) = -(n : ℚ) := by
        have h1 : n ≤ 0 := roundHalfEven_nonpos _ (mul_neg_of_pos_of_neg (by norm_num) hq)
        have h2 : (m : Int) = -n := by
          rw [hm]
          omega
        exact_mod_cast h2
      simp only [brParse]
      rw [hfilter, List.singleton_append, List.cons_append]
      simp only [List.head?_cons, if_true]
      rw [List.drop_one, List.tail_cons]
      rw [htake.1, htake.2]
      rw [List.drop_one, List.tail_cons]
      rw [hddval, hval2]
      rw [show ([c1, c2].length) = (2 : Nat) from rfl, hkey, hmn]
      ring
    · have hsv : sign = [] := by rw [hsign, if_neg hq]
      rw [hsv, List.nil_append] at hfilter
      have hmn : (m : ℚ) = (n : ℚ) := by
        have h1 : 0 ≤ n := roundHalfEven_nonneg _ (by
          have h0 : (0 : ℚ) ≤ q := not_lt.1 hq
          positivity)
        have h2 : (m : Int) = n := by
          rw [hm]
          omega
        exact_mod_cast h2
      obtain ⟨d0, dd2, hdd0⟩ := List.exists_cons_of_ne_nil hddnil
      have hd0 : d0.isDigit = true := hddigits d0 (by rw [hdd0]; exact List.mem_cons_self _ _)
      have hhead : ((g.filter (fun c => c ≠ ',') ++ ',' :: [c1, c2]).head? : Option Char) ≠
          some '-' := by
        rw [hdd0, List.cons_append, List.head?_cons]
        intro he
        exact (isDigit_ne d0 hd0).2.2.1 (Option.some.inj he)
      simp only [brParse]
      rw [hfilter]
      rw [if_neg hhead, if_neg hhead]
      rw [htake.1, htake.2]
      rw [List.drop_one, List.tail_cons]
      rw [hddval, hval2]
      rw [show ([c1, c2].length) = (2 : Nat) from rfl, hkey, hmn]
      ring
  exact ⟨sign ++ g.map brChar, c1, c2, hfb, hpcomma, hd1, hd2, hbp⟩

/-- A list of numeric cells is the image of a list of rationals. -/
theorem exists_qs_of_all_vnum : ∀ vs : List Val,
    (∀ v ∈ vs, ∃ q : ℚ, v = Val.vnum q) → ∃ qs : List ℚ, vs = qs.map Val.vnum := by
  intro vs
  induction vs with
  | nil => exact fun _ => ⟨[], rfl⟩
  | cons v vs ih =>
    intro h
    obtain ⟨q, hq⟩ := h v (List.mem_cons_self v vs)
    obtain ⟨qs, hqs⟩ := ih (fun x hx => h x (List.mem_cons_of_mem v hx))
    exact ⟨q :: qs, by rw [List.map_cons, ← hq, ← hqs]⟩

/-- The currency lambda succeeds on every numeric column. -/
theorem mapOpt_format_vnum (qs : List ℚ) :
    mapOpt format_valor (qs.map Val.vnum) =
      some (qs.map (fun q => Val.vstr (String.mk (formatBR q)))) := by
  induction qs with
  | nil => rfl
  | cons q qs ih =>
    rw [List.map_cons, mapOpt, ih]
    rfl

/-- Complete behaviour of `_formatar_valores_brasileiros` on tables whose
listed present columns are numeric: it succeeds, skips absent listed
columns, leaves unlisted columns unchanged, and rewrites each present
listed column cell-wise into its Brazilian-locale string. -/
theorem formatar_total : ∀ (colunas : List String) (df : DataFrame),
    colunas.Nodup →
    (∀ c ∈ colunas, ∀ vs, df.getCol c = some vs → ∀ v ∈ vs, ∃ q : ℚ, v = Val.vnum q) →
    ∃ df2, formatar_valores_brasileiros df colunas = some df2 ∧
      (∀ c, c ∉ colunas → df2.getCol c = df.getCol c) ∧
      (∀ c ∈ colunas, df.getCol c = none → df2.getCol c = none) ∧
      (∀ c ∈ colunas, ∀ qs : List ℚ, df.getCol c = some (qs.map Val.vnum) →
        df2.getCol c = some (qs.map (fun q => Val.vstr (String.mk (formatBR q))))) := by
  intro colunas
  induction colunas with
  | nil =>
    intro df _ _
    exact ⟨df, rfl, fun _ _ => rfl,
      fun c hc => absurd hc (List.not_mem_nil c),
      fun c hc => absurd hc (List.not_mem_nil c)⟩
  | cons c0 cs ih =>
    intro df hnodup hnum
    have hc0cs : c0 ∉ cs := (List.nodup_cons.1 hnodup).1
    cases h0 : df.getCol c0 with
    | none =>
      obtain ⟨df2, hf, hothers, habsent, hformat⟩ := ih df (List.nodup_cons.1 hnodup).2
        (fun c hc => hnum c (List.mem_cons_of_mem c0 hc))
      refine ⟨df2, ?_, ?_, ?_, ?_⟩
      · rw [formatar_valores_brasileiros, h0]
        exact hf
      · exact fun c hc => hothers c (fun hm => hc (List.mem_cons_of_mem c0 hm))
      · intro c hc hcn
        rcases List.mem_cons.1 hc with rfl | hc2
        · rw [hothers c hc0cs]
          exact hcn
        · exact habsent c hc2 hcn
      · intro c hc qs hqs
        rcases List.mem_cons.1 hc with rfl | hc2
        · rw [h0] at hqs
          cases hqs
        · exact hformat c hc2 qs hqs
    | some vs =>
      obtain ⟨qs0, hqs0⟩ := exists_qs_of_all_vnum vs (hnum c0 (List.mem_cons_self c0 cs) vs h0)
      have hmo : mapOpt format_valor vs =
          some (qs0.map (fun q => Val.vstr (String.mk (formatBR q)))) := by
        rw [hqs0]
        exact mapOpt_format_vnum qs0
      have hset := getCol_setCol_self df c0
        (qs0.map (fun q => Val.vstr (String.mk (formatBR q))))
      obtain ⟨df2, hf, hothers, habsent, hformat⟩ := ih
        (df.setCol c0 (qs0.map (fun q => Val.vstr (String.mk (formatBR q)))))
        (List.nodup_cons.1 hnodup).2
        (fun c hc vs2 hvs2 => by
          rw [getCol_setCol_ne _ _ _ _ (fun he => hc0cs (by rw [← he]; exact hc))] at hvs2
          exact hnum c (List.mem_cons_of_mem c0 hc) vs2 hvs2)
      refine ⟨df2, ?_, ?_, ?_, ?_⟩
      · rw [formatar_valores_brasileiros, h0]
        dsimp only
        rw [hmo]
        exact hf
      · intro c hc
        rw [hothers c (fun hm => hc (List.mem_cons_of_mem c0 hm))]
        exact getCol_setCol_ne _ _ _ _ (fun he => hc (he ▸ List.mem_cons_self c0 cs))
      · intro c hc hcn
        rcases List.mem_cons.1 hc with rfl | hc2
        · rw [h0] at hcn
          cases hcn
        · have hne : c ≠ c0 := fun he => hc0cs (he ▸ hc2)
          refine habsent c hc2 ?_
          rw [getCol_setCol_ne _ _ _ _ hne]
          exact hcn
      · intro c hc qs hqs
        rcases List.mem_cons.1 hc with rfl | hc2
        · rw [h0] at hqs
          have hinj : Function.Injective Val.vnum := fun a b h => by
            injection h
          have : qs0 = qs := List.map_injective_iff.2 hinj (by
            injection hqs with hqs2
            rw [hqs0] at hqs2
            exact hqs2)
          subst this
          rw [hothers c hc0cs]
          exact hset
        · have hne : c ≠ c0 := fun he => hc0cs (he ▸ hc2)
          refine hformat c hc2 qs ?_
          rw [getCol_setCol_ne _ _ _ _ hne]
          exact hqs

/-- C7: the currency reformatting of `valorInicialCompra` /
`valorFinalCompra` maps `1234567.89` to the string `1.234.567,89` and
`0.5` to `0,50` (thousands `.` and decimal `,`), and every numeric cell
becomes text (a string value) after this step. -/
theorem claim_C7 :
    formatar_valores_brasileiros
        ⟨[("valorInicialCompra", [Val.vnum ((123456789 : ℚ) / 100)]),
          ("valorFinalCompra", [Val.vnum ((1 : ℚ) / 2)])]⟩
        ["valorInicialCompra", "valorFinalCompra"] =
      some ⟨[("valorInicialCompra", [Val.vstr "1.234.567,89"]),
        ("valorFinalCompra", [Val.vstr "0,50"])]⟩ ∧
    (∀ q : ℚ, ∃ s : String, format_valor (Val.vnum q) = some (Val.vstr s)) :=
  ⟨by with_unfolding_all rfl, fun q => ⟨_, rfl⟩⟩

/-- C10: on the listed currency columns, the formatter silently skips an
absent column, leaves every other column unchanged, rewrites each present
numeric column cell-wise, and each produced string has exactly two digit
characters after its unique decimal comma and denotes the cell value
rounded (half-to-even) to two decimal places. -/
theorem claim_C10 (df : DataFrame) (colunas : List String)
    (hnodup : colunas.Nodup)
    (hnum : ∀ c ∈ colunas, ∀ vs, df.getCol c = some vs →
      ∀ v ∈ vs, ∃ q : ℚ, v = Val.vnum q) :
    (∃ df2, formatar_valores_brasileiros df colunas = some df2 ∧
      (∀ c, c ∉ colunas → df2.getCol c = df.getCol c) ∧
      (∀ c ∈ colunas, df.getCol c = none → df2.getCol c = none) ∧
      (∀ c ∈ colunas, ∀ qs : List ℚ, df.getCol c = some (qs.map Val.vnum) →
        df2.getCol c = some (qs.map (fun q => Val.vstr (String.mk (formatBR q)))))) ∧
    (∀ q : ℚ, ∃ p d1 d2, formatBR q = p ++ [',', d1, d2] ∧ ',' ∉ p ∧
      d1.isDigit = true ∧ d2.isDigit = true ∧
      brParse (formatBR q) = (roundHalfEven (100 * q) : ℚ) / 100) :=
  ⟨formatar_total colunas df hnodup hnum, fun q => formatBR_spec q⟩

/-- C10 witness: the two listed columns on a table that has neither, plus
the string shape at the concrete value `1/2`. -/
theorem claim_C10_witness :
    (∃ df2, formatar_valores_brasileiros ⟨[("outros", [Val.vnull])]⟩
        ["valorInicialCompra", "valorFinalCompra"] = some df2 ∧
      df2.getCol "outros" = some [Val.vnull] ∧
      df2.getCol "valorInicialCompra" = none) ∧
    (∃ p d1 d2, formatBR ((1 : ℚ) / 2) = p ++ [',', d1, d2] ∧ ',' ∉ p ∧
      d1.isDigit = true ∧ d2.isDigit = true ∧
      brParse (formatBR ((1 : ℚ) / 2)) =
        (roundHalfEven (100 * ((1 : ℚ) / 2)) : ℚ) / 100) := by
  obtain ⟨⟨df2, hf, hothers, habsent, _⟩, hq⟩ :=
    claim_C10 ⟨[("outros", [Val.vnull])]⟩ ["valorInicialCompra", "valorFinalCompra"]
      (by decide)
      (by
        intro c hc vs hvs v hv
        fin_cases hc <;> simp [DataFrame.getCol, lookupCol] at hvs)
  refine ⟨⟨df2, hf, ?_, habsent "valorInicialCompra" (by decide) rfl⟩,
    hq ((1 : ℚ) / 2)⟩
  rw [hothers "outros" (by decide)]
  rfl

end Contratos
